import Mathlib

/-!
Verification development for the `tokenize-rs` library (`src/lib.rs`).

The embedding models Rust strings as lists of Unicode scalar values
(`Str := List Nat`), byte buffers as `List Nat` with elements `< 256`,
`u64`/`i64` values as `Nat`/`Int` with explicit two's-complement wrapping
where the source casts or may overflow (release-mode wrapping semantics),
and the external HMAC-SHA256 primitive (`hmac_sha256::HMAC::mac`) as a
function parameter, since it is a foreign crate whose only property the
library relies on is determinism.

External standard-library primitives used by the source (`base64`
encode/decode with `STANDARD_NO_PAD`, `str::from_utf8`, `str::parse::<u64>`,
`String::split`) are given executable models below.

Rust panics (out-of-bounds indexing of the split-segment vector) are modelled
by the dedicated result constructor `VResult.panicked`.
-/

/-- A Rust string, as its list of Unicode scalar values. -/
abbrev Str := List Nat

/-- `TOKENIZE_VERSION: u32 = 1` from the source. -/
def TOKENIZE_VERSION : Nat := 1

/-- `TOKENIZE_EPOCH: i64 = 1546300800000` from the source. -/
def TOKENIZE_EPOCH : Int := 1546300800000

/-- A Unicode scalar value: any code point except the surrogate range,
below `0x110000`.  Every `char` of a Rust `String` satisfies this. -/
def ValidScalar (n : Nat) : Prop := n < 0xD800 ∨ (0xE000 ≤ n ∧ n < 0x110000)

instance (n : Nat) : Decidable (ValidScalar n) := by
  unfold ValidScalar; infer_instance

/-- UTF-8 encoding of one Unicode scalar value (the byte sequences produced
by Rust's `String` storage), written with `/`, `%`, `+` in place of the
equivalent bit operations. -/
def utf8EncodeChar (n : Nat) : List Nat :=
  if n < 0x80 then [n]
  else if n < 0x800 then [0xC0 + n / 64, 0x80 + n % 64]
  else if n < 0x10000 then [0xE0 + n / 4096, 0x80 + (n / 64) % 64, 0x80 + n % 64]
  else [0xF0 + n / 262144, 0x80 + (n / 4096) % 64, 0x80 + (n / 64) % 64, 0x80 + n % 64]

/-- UTF-8 encoding of a string: the bytes of the Rust `String` /
`str::as_bytes`. -/
def utf8Encode : Str → List Nat
  | [] => []
  | c :: cs => utf8EncodeChar c ++ utf8Encode cs

/-- One step of UTF-8 decoding with full validity checking
(continuation-byte ranges, overlong forms, surrogates, the `0x110000`
ceiling): decodes the leading scalar value and returns it with the
remaining bytes, or `none` on an invalid or empty sequence. -/
def utf8DecodeOne : List Nat → Option (Nat × List Nat)
  | [] => none
  | b :: bs =>
    if b < 0x80 then some (b, bs)
    else if b < 0xC2 then none
    else if b < 0xE0 then
      match bs with
      | b2 :: bs2 =>
        if 0x80 ≤ b2 ∧ b2 < 0xC0 then
          some ((b - 0xC0) * 64 + (b2 - 0x80), bs2)
        else none
      | [] => none
    else if b < 0xF0 then
      match bs with
      | b2 :: b3 :: bs3 =>
        if (0x80 ≤ b2 ∧ b2 < 0xC0) ∧ (0x80 ≤ b3 ∧ b3 < 0xC0) then
          let cp := (b - 0xE0) * 4096 + (b2 - 0x80) * 64 + (b3 - 0x80)
          if 0x800 ≤ cp ∧ (cp < 0xD800 ∨ 0xE000 ≤ cp) then some (cp, bs3)
          else none
        else none
      | _ => none
    else if b < 0xF5 then
      match bs with
      | b2 :: b3 :: b4 :: bs4 =>
        if (0x80 ≤ b2 ∧ b2 < 0xC0) ∧ (0x80 ≤ b3 ∧ b3 < 0xC0) ∧ (0x80 ≤ b4 ∧ b4 < 0xC0) then
          let cp := (b - 0xF0) * 262144 + (b2 - 0x80) * 4096 + (b3 - 0x80) * 64 + (b4 - 0x80)
          if 0x10000 ≤ cp ∧ cp < 0x110000 then some (cp, bs4)
          else none
        else none
      | _ => none
    else none

/-- Iterated UTF-8 decoding with a fuel bound on the number of scalar
values (any fuel at least the byte length is enough, since each step
consumes at least one byte). -/
def utf8DecodeLoop (fuel : Nat) (l : List Nat) : Option (List Nat) :=
  match l with
  | [] => some []
  | b :: bs =>
    match fuel with
    | 0 => none
    | fuel' + 1 =>
      match utf8DecodeOne (b :: bs) with
      | none => none
      | some (c, rest) => (utf8DecodeLoop fuel' rest).map (fun r => c :: r)

/-- A model of `str::from_utf8`: full UTF-8 validation and decoding to the
string's scalar values, `none` exactly on invalid input. -/
def utf8Decode (l : List Nat) : Option (List Nat) := utf8DecodeLoop l.length l

/-- The standard base64 alphabet (`base64::STANDARD_NO_PAD`): sextet value to
character code. -/
def b64Char (n : Nat) : Nat :=
  if n < 26 then 65 + n
  else if n < 52 then 97 + (n - 26)
  else if n < 62 then 48 + (n - 52)
  else if n = 62 then 43
  else 47

/-- Inverse alphabet lookup: character code to sextet value, `none` for
characters outside the standard alphabet. -/
def b64Val (c : Nat) : Option Nat :=
  if 65 ≤ c ∧ c ≤ 90 then some (c - 65)
  else if 97 ≤ c ∧ c ≤ 122 then some (c - 97 + 26)
  else if 48 ≤ c ∧ c ≤ 57 then some (c - 48 + 52)
  else if c = 43 then some 62
  else if c = 47 then some 63
  else none

/-- Unpadded standard base64 encoding of a byte sequence: a model of
`base64::encode_config(_, base64::STANDARD_NO_PAD)`.  Three input bytes
become four characters; a trailing byte or byte pair becomes two or three
characters with zero-padded low bits. -/
def b64EncodeBytes : List Nat → List Nat
  | [] => []
  | [b1] => [b64Char (b1 / 4), b64Char ((b1 % 4) * 16)]
  | [b1, b2] => [b64Char (b1 / 4), b64Char ((b1 % 4) * 16 + b2 / 16), b64Char ((b2 % 16) * 4)]
  | b1 :: b2 :: b3 :: rest =>
    b64Char (b1 / 4) :: b64Char ((b1 % 4) * 16 + b2 / 16) ::
      b64Char ((b2 % 16) * 4 + b3 / 64) :: b64Char (b3 % 64) :: b64EncodeBytes rest

/-- Unpadded standard base64 decoding: a model of
`base64::decode_config(_, base64::STANDARD_NO_PAD)`.  Fails on characters
outside the alphabet, on a length `≡ 1 (mod 4)`, and on nonzero trailing
bits in the final partial group. -/
def b64DecodeChars : List Nat → Option (List Nat)
  | [] => some []
  | [c1, c2] =>
    match b64Val c1, b64Val c2 with
    | some v1, some v2 =>
      if v2 % 16 = 0 then some [v1 * 4 + v2 / 16] else none
    | _, _ => none
  | [c1, c2, c3] =>
    match b64Val c1, b64Val c2, b64Val c3 with
    | some v1, some v2, some v3 =>
      if v3 % 4 = 0 then some [v1 * 4 + v2 / 16, (v2 % 16) * 16 + v3 / 4] else none
    | _, _, _ => none
  | c1 :: c2 :: c3 :: c4 :: rest =>
    match b64Val c1, b64Val c2, b64Val c3, b64Val c4 with
    | some v1, some v2, some v3, some v4 =>
      (b64DecodeChars rest).map
        (fun r => (v1 * 4 + v2 / 16) :: ((v2 % 16) * 16 + v3 / 4) :: ((v3 % 4) * 64 + v4) :: r)
    | _, _, _, _ => none
  | [_] => none

/-- `token.split(".")` from the source: splitting a string on the dot
character (code 46).  `splitDot []` is `[[]]`, matching Rust's
`"".split(".")` yielding one empty segment. -/
def splitDot : Str → List Str
  | [] => [[]]
  | c :: cs =>
    if c = 46 then [] :: splitDot cs
    else
      match splitDot cs with
      | s :: ss => (c :: s) :: ss
      | [] => [[c]]

/-- Joining segments with dots (the inverse wire layout described by the
spec: segments interleaved with `.`). -/
def joinDot : List Str → Str
  | [] => []
  | [s] => s
  | s :: rest => s ++ 46 :: joinDot rest

/-- Decimal digit characters of a natural number, most significant first,
with an explicit fuel argument to keep the recursion structural. -/
def natDecDigitsAux : Nat → Nat → Str
  | 0, _ => []
  | fuel + 1, n =>
    if n < 10 then [48 + n]
    else natDecDigitsAux fuel (n / 10) ++ [48 + n % 10]

/-- Decimal digit characters of a natural number (`to_string` on an
unsigned value). -/
def natDecDigits (n : Nat) : Str := natDecDigitsAux (n + 1) n

/-- `i64::to_string`: decimal representation with a leading minus sign for
negative values. -/
def intDecStr (i : Int) : Str :=
  if i < 0 then 45 :: natDecDigits i.natAbs else natDecDigits i.toNat

/-- A model of `str::parse::<u64>()`: an optional leading `+`, then one or
more decimal digits, rejecting values that do not fit in 64 bits.  (Rust
detects overflow during accumulation, which rejects exactly the digit
strings whose value is `≥ 2^64`.) -/
def parseU64 (s : Str) : Option Nat :=
  let digits := if s.headD 0 = 43 then s.tail else s
  if digits = [] then none
  else if digits.all (fun c => 48 ≤ c && c ≤ 57) then
    let v := digits.foldl (fun acc c => acc * 10 + (c - 48)) 0
    if v < 18446744073709551616 then some v else none
  else none

/-- Reduction of an integer into the `i64` range by two's-complement
wrapping. -/
def wrapI64 (x : Int) : Int :=
  (x + 9223372036854775808) % 18446744073709551616 - 9223372036854775808

/-- The Rust cast `u64value as i64`: bit-pattern reinterpretation. -/
def u64AsI64 (n : Nat) : Int := wrapI64 n

/-- `i64` multiplication with release-mode wrapping-on-overflow semantics. -/
def i64Mul (a b : Int) : Int := wrapI64 (a * b)

/-- `i64` addition with release-mode wrapping-on-overflow semantics. -/
def i64Add (a b : Int) : Int := wrapI64 (a + b)

/-- The `Tokenize` struct: the MAC secret (bytes) and the optional token
prefix string (source field `prefix`, renamed because `prefix` is a Lean
keyword). -/
structure Tokenize where
  secret : List Nat
  pfx : Option Str

/-- The distinct failure values `validate`/`generate` can produce, named
after the spec's error kinds.  `malformedToken` is the source's
`"Token is invalid"` segment-count failure; `decodeError`, `utf8Error` and
`parseError` are the base64, `from_utf8` and `parse::<u64>` failures the
source propagates with `?` (the spec groups these under `MalformedToken`). -/
inductive VError where
  | malformedToken
  | prefixMismatch
  | signatureMismatch
  | decodeError
  | utf8Error
  | parseError
  | unknownAccount
  | tokenInvalidated
deriving DecidableEq

/-- Outcome of `validate`: a success, a typed error, or a Rust panic
(out-of-bounds vector indexing). -/
inductive VResult (α : Type) where
  | ok (account : α)
  | err (e : VError)
  | panicked
deriving DecidableEq

/-- The external MAC primitive `hmac_sha256::HMAC::mac`: message bytes and
secret bytes to MAC bytes. -/
abbrev Hmac := List Nat → List Nat → List Nat

/-- `crypto::util::fixed_time_eq`, functionally: byte-sequence equality.
(Its constant-time execution behaviour is not part of the functional
model.) -/
def fixed_time_eq (a b : List Nat) : Bool := a == b

/-- `Tokenize::compute_hmac`: MACs the bytes of
`format!("TTF.{}.{}", TOKENIZE_VERSION, token)`. -/
def compute_hmac (hmac : Hmac) (token : Str) (secret : List Nat) : List Nat :=
  hmac (utf8Encode ([84, 84, 70, 46] ++ natDecDigits TOKENIZE_VERSION ++ 46 :: token)) secret

/-- The source's `max_len`: `4` if a prefix is configured, else `3`. -/
def maxLen (tk : Tokenize) : Nat := if tk.pfx.isSome then 4 else 3

/-- Lines 113–123 of the source: the prefix check and the construction of
`signature_string` (`format!("{}.{}.{}", prefix, splitted[1], splitted[2])`
or `format!("{}.{}", splitted[0], splitted[1])`). -/
def sigStringOf (tk : Tokenize) (splitted : List Str) : VResult Str :=
  match tk.pfx with
  | some p =>
    match splitted.get? 0, splitted.get? 1, splitted.get? 2 with
    | some s0, some s1, some s2 =>
      if p ≠ s0 then .err .prefixMismatch
      else .ok (p ++ 46 :: s1 ++ 46 :: s2)
    | _, _, _ => .panicked
  | none =>
    match splitted.get? 0, splitted.get? 1 with
    | some s0, some s1 => .ok (s0 ++ 46 :: s1)
    | _, _ => .panicked

/-- The right-hand side of the source's freshness comparison:
`(timestamp as i64 * 1000) + TOKENIZE_EPOCH`, in `i64` arithmetic. -/
def freshnessBound (timestamp : Nat) : Int :=
  i64Add (i64Mul (u64AsI64 timestamp) 1000) TOKENIZE_EPOCH

/-- Lines 131–145 of the source: decode the account-id and timestamp
segments, fetch the account, and run the freshness check. -/
def decodePhase {α : Type} (tk : Tokenize) (splitted : List Str)
    (accountFetcher : Str → Option α) (lastTokenReset : α → Nat) : VResult α :=
  match splitted.get? (maxLen tk - 3), splitted.get? (maxLen tk - 2) with
  | some accSeg, some timeSeg =>
    match b64DecodeChars accSeg with
    | none => .err .decodeError
    | some accBytes =>
      match utf8Decode accBytes with
      | none => .err .utf8Error
      | some account_id =>
        match b64DecodeChars timeSeg with
        | none => .err .decodeError
        | some timeBytes =>
          match utf8Decode timeBytes with
          | none => .err .utf8Error
          | some timeStr =>
            match parseU64 timeStr with
            | none => .err .parseError
            | some timestamp =>
              match accountFetcher account_id with
              | none => .err .unknownAccount
              | some account =>
                if u64AsI64 (lastTokenReset account) > freshnessBound timestamp
                then .err .tokenInvalidated
                else .ok account
  | _, _ => .panicked

/-- `Tokenize::validate`.  The account type is a parameter together with its
`last_token_reset` accessor, modelling `Box<dyn Account>`; `hmac` is the
external MAC primitive.  Indexing `splitted[max_len - 1]` out of bounds is
`panicked`. -/
def validate {α : Type} (tk : Tokenize) (hmac : Hmac) (token : Str)
    (accountFetcher : Str → Option α) (lastTokenReset : α → Nat) : VResult α :=
  let splitted := splitDot token
  if splitted.length < 3 ∨ splitted.length > maxLen tk then .err .malformedToken
  else
    match sigStringOf tk splitted with
    | .panicked => .panicked
    | .err e => .err e
    | .ok signature_string =>
      let signature := compute_hmac hmac signature_string tk.secret
      match splitted.get? (maxLen tk - 1) with
      | none => .panicked
      | some lastSeg =>
        if fixed_time_eq (utf8Encode (b64EncodeBytes signature)) (utf8Encode lastSeg)
        then decodePhase tk splitted accountFetcher lastTokenReset
        else .err .signatureMismatch

/-- `Tokenize::generate`.  `timeSec` stands for the result of the
`Self::current_token_time()` call (the clock is an external input).  The
source's error type `FromUtf8Error` is never constructed, so the error
component is `Unit`. -/
def generate (tk : Tokenize) (hmac : Hmac) (timeSec : Int) (accountId : Str) :
    Except Unit Str :=
  let current_time := intDecStr timeSec
  let account_part := b64EncodeBytes (utf8Encode accountId)
  let time_part := b64EncodeBytes (utf8Encode current_time)
  let prefix_part :=
    match tk.pfx with
    | some p => p ++ [46]
    | none => []
  let token := prefix_part ++ account_part ++ 46 :: time_part
  let signature := compute_hmac hmac token tk.secret
  let signature_part := b64EncodeBytes signature
  .ok (token ++ 46 :: signature_part)

/-- `Tokenize::current_token_time`, parameterized by the wall clock in
milliseconds; Rust `i64` division truncates toward zero (`Int.div`). -/
def current_token_time (nowMs : Int) : Int :=
  Int.tdiv (nowMs - TOKENIZE_EPOCH) 1000

/-- The spec's description of the signed message: the literal tag `"TTF"`,
a dot, the protocol version as decimal ASCII, a dot, and a pre-signature
string, as UTF-8 bytes. -/
def macMessage (presig : Str) : List Nat :=
  utf8Encode ([84, 84, 70] ++ 46 :: natDecDigits TOKENIZE_VERSION ++ 46 :: presig)

/-- The spec's description of the pre-signature segments of a token built
by `generate`: the optional prefix, then the account part, then the time
part. -/
def genPresigSegments (tk : Tokenize) (timeSec : Int) (accountId : Str) : List Str :=
  (match tk.pfx with
    | some p => [p]
    | none => []) ++
    [b64EncodeBytes (utf8Encode accountId), b64EncodeBytes (utf8Encode (intDecStr timeSec))]

/-- The spec's description of the pre-signature segments of a token being
validated: its split segments excluding the signature segment (indices
`[0, expected_len - 1)`). -/
def tokenPresigSegments (tk : Tokenize) (token : Str) : List Str :=
  (splitDot token).take (maxLen tk - 1)

/-- Every base64 alphabet character differs from the dot separator. -/
theorem b64Char_ne_dot (n : Nat) : b64Char n ≠ 46 := by
  unfold b64Char; split_ifs <;> omega

/-- Alphabet lookup inverts the alphabet map on sextet values. -/
theorem b64Val_b64Char : ∀ n < 64, b64Val (b64Char n) = some n := by decide

/-- Base64 encodings never contain the dot separator. -/
theorem b64EncodeBytes_no_dot : ∀ bs : List Nat, ∀ c ∈ b64EncodeBytes bs, c ≠ 46 := by
  intro bs
  induction bs using b64EncodeBytes.induct with
  | case1 =>
    intro c hc; simp [b64EncodeBytes] at hc
  | case2 b1 =>
    intro c hc
    simp [b64EncodeBytes] at hc
    rcases hc with h | h <;> (subst h; exact b64Char_ne_dot _)
  | case3 b1 b2 =>
    intro c hc
    simp [b64EncodeBytes] at hc
    rcases hc with h | h | h <;> (subst h; exact b64Char_ne_dot _)
  | case4 b1 b2 b3 rest ih =>
    intro c hc
    simp only [b64EncodeBytes, List.mem_cons] at hc
    rcases hc with h | h | h | h | h
    · subst h; exact b64Char_ne_dot _
    · subst h; exact b64Char_ne_dot _
    · subst h; exact b64Char_ne_dot _
    · subst h; exact b64Char_ne_dot _
    · exact ih c h

/-- Decoding inverts encoding on byte sequences. -/
theorem b64_roundtrip : ∀ bs : List Nat, (∀ b ∈ bs, b < 256) →
    b64DecodeChars (b64EncodeBytes bs) = some bs := by
  intro bs
  induction bs using b64EncodeBytes.induct with
  | case1 => intro _; rfl
  | case2 b1 =>
    intro h
    have h1 : b1 < 256 := h b1 (by simp)
    have e1 := b64Val_b64Char (b1 / 4) (by omega)
    have e2 := b64Val_b64Char ((b1 % 4) * 16) (by omega)
    simp only [b64EncodeBytes, b64DecodeChars, e1, e2]
    rw [if_pos (by omega : (b1 % 4) * 16 % 16 = 0)]
    have : b1 / 4 * 4 + (b1 % 4) * 16 / 16 = b1 := by omega
    rw [this]
  | case3 b1 b2 =>
    intro h
    have h1 : b1 < 256 := h b1 (by simp)
    have h2 : b2 < 256 := h b2 (by simp)
    have e1 := b64Val_b64Char (b1 / 4) (by omega)
    have e2 := b64Val_b64Char ((b1 % 4) * 16 + b2 / 16) (by omega)
    have e3 := b64Val_b64Char ((b2 % 16) * 4) (by omega)
    simp only [b64EncodeBytes, b64DecodeChars, e1, e2, e3]
    rw [if_pos (by omega : (b2 % 16) * 4 % 4 = 0)]
    have r1 : b1 / 4 * 4 + ((b1 % 4) * 16 + b2 / 16) / 16 = b1 := by omega
    have r2 : ((b1 % 4) * 16 + b2 / 16) % 16 * 16 + (b2 % 16) * 4 / 4 = b2 := by omega
    rw [r1, r2]
  | case4 b1 b2 b3 rest ih =>
    intro h
    have h1 : b1 < 256 := h b1 (by simp)
    have h2 : b2 < 256 := h b2 (by simp)
    have h3 : b3 < 256 := h b3 (by simp)
    have hrest : ∀ b ∈ rest, b < 256 := fun b hb => h b (by simp [hb])
    have e1 := b64Val_b64Char (b1 / 4) (by omega)
    have e2 := b64Val_b64Char ((b1 % 4) * 16 + b2 / 16) (by omega)
    have e3 := b64Val_b64Char ((b2 % 16) * 4 + b3 / 64) (by omega)
    have e4 := b64Val_b64Char (b3 % 64) (by omega)
    simp only [b64EncodeBytes, b64DecodeChars, e1, e2, e3, e4, ih hrest, Option.map_some]
    have r1 : b1 / 4 * 4 + ((b1 % 4) * 16 + b2 / 16) / 16 = b1 := by omega
    have r2 : ((b1 % 4) * 16 + b2 / 16) % 16 * 16 + ((b2 % 16) * 4 + b3 / 64) / 4 = b2 := by
      omega
    have r3 : ((b2 % 16) * 4 + b3 / 64) % 4 * 64 + b3 % 64 = b3 := by omega
    rw [r1, r2, r3]
    rfl

/-- Splitting a dot-free string yields that single segment. -/
theorem splitDot_no_dot : ∀ s : Str, (∀ c ∈ s, c ≠ 46) → splitDot s = [s] := by
  intro s
  induction s with
  | nil => intro _; rfl
  | cons c cs ih =>
    intro h
    have hc : c ≠ 46 := h c (by simp)
    simp only [splitDot, if_neg hc, ih (fun x hx => h x (by simp [hx]))]

/-- Splitting peels off one dot-free segment before an explicit dot. -/
theorem splitDot_append : ∀ s rest : Str, (∀ c ∈ s, c ≠ 46) →
    splitDot (s ++ 46 :: rest) = s :: splitDot rest := by
  intro s
  induction s with
  | nil => intro rest _; simp [splitDot]
  | cons c cs ih =>
    intro rest h
    have hc : c ≠ 46 := h c (by simp)
    simp only [List.cons_append, splitDot, if_neg hc, List.append_eq,
      ih rest (fun x hx => h x (by simp [hx]))]

/-- `wrapI64` is the identity on the `i64` range. -/
theorem wrapI64_eq_self {x : Int} (h1 : -9223372036854775808 ≤ x)
    (h2 : x < 9223372036854775808) : wrapI64 x = x := by
  unfold wrapI64; omega

/-- UTF-8 encoding of a Unicode scalar value produces bytes. -/
theorem utf8EncodeChar_lt256 (c : Nat) (h : ValidScalar c) :
    ∀ b ∈ utf8EncodeChar c, b < 256 := by
  unfold ValidScalar at h
  intro b hb
  unfold utf8EncodeChar at hb
  split_ifs at hb <;> simp at hb <;> omega

/-- UTF-8 encoding of a string of Unicode scalar values produces bytes. -/
theorem utf8Encode_lt256 : ∀ s : Str, (∀ c ∈ s, ValidScalar c) →
    ∀ b ∈ utf8Encode s, b < 256 := by
  intro s
  induction s with
  | nil => intro _ b hb; simp [utf8Encode] at hb
  | cons c cs ih =>
    intro h b hb
    simp only [utf8Encode, List.mem_append] at hb
    rcases hb with hb | hb
    · exact utf8EncodeChar_lt256 c (h c (by simp)) b hb
    · exact ih (fun x hx => h x (by simp [hx])) b hb


/-- UTF-8 encoding of a scalar value is never empty. -/
theorem utf8EncodeChar_ne_nil (c : Nat) : utf8EncodeChar c ≠ [] := by
  unfold utf8EncodeChar; split_ifs <;> simp

theorem utf8DecodeOne_encodeChar (c : Nat) (h : ValidScalar c) (rest : List Nat) :
    utf8DecodeOne (utf8EncodeChar c ++ rest) = some (c, rest) := by
  unfold ValidScalar at h
  rcases Nat.lt_or_ge c 0x80 with h1 | h1
  · simp only [utf8EncodeChar, if_pos h1, List.cons_append, List.nil_append, utf8DecodeOne,
      if_pos h1]
  · rcases Nat.lt_or_ge c 0x800 with h2 | h2
    · have hc : (0xC0 + c / 64 - 0xC0) * 64 + (0x80 + c % 64 - 0x80) = c := by omega
      simp only [utf8EncodeChar, if_neg (by omega : ¬ c < 0x80), if_pos h2, List.cons_append,
        List.nil_append, utf8DecodeOne,
        if_neg (by omega : ¬ 0xC0 + c / 64 < 0x80),
        if_neg (by omega : ¬ 0xC0 + c / 64 < 0xC2),
        if_pos (by omega : 0xC0 + c / 64 < 0xE0),
        if_pos (⟨by omega, by omega⟩ : 0x80 ≤ 0x80 + c % 64 ∧ 0x80 + c % 64 < 0xC0), hc]
    · rcases Nat.lt_or_ge c 0x10000 with h3 | h3
      · have hc : (0xE0 + c / 4096 - 0xE0) * 4096 + (0x80 + c / 64 % 64 - 0x80) * 64 +
            (0x80 + c % 64 - 0x80) = c := by omega
        simp only [utf8EncodeChar, if_neg (by omega : ¬ c < 0x80),
          if_neg (by omega : ¬ c < 0x800), if_pos h3, List.cons_append, List.nil_append,
          utf8DecodeOne,
          if_neg (by omega : ¬ 0xE0 + c / 4096 < 0x80),
          if_neg (by omega : ¬ 0xE0 + c / 4096 < 0xC2),
          if_neg (by omega : ¬ 0xE0 + c / 4096 < 0xE0),
          if_pos (by omega : 0xE0 + c / 4096 < 0xF0),
          if_pos (⟨⟨by omega, by omega⟩, by omega, by omega⟩ :
            (0x80 ≤ 0x80 + c / 64 % 64 ∧ 0x80 + c / 64 % 64 < 0xC0) ∧
              0x80 ≤ 0x80 + c % 64 ∧ 0x80 + c % 64 < 0xC0), hc,
          if_pos (by omega : 0x800 ≤ c ∧ (c < 0xD800 ∨ 0xE000 ≤ c))]
      · have h4 : c < 0x110000 := by omega
        have hc : (0xF0 + c / 262144 - 0xF0) * 262144 + (0x80 + c / 4096 % 64 - 0x80) * 4096 +
            (0x80 + c / 64 % 64 - 0x80) * 64 + (0x80 + c % 64 - 0x80) = c := by omega
        simp only [utf8EncodeChar, if_neg (by omega : ¬ c < 0x80),
          if_neg (by omega : ¬ c < 0x800), if_neg (by omega : ¬ c < 0x10000),
          List.cons_append, List.nil_append, utf8DecodeOne,
          if_neg (by omega : ¬ 0xF0 + c / 262144 < 0x80),
          if_neg (by omega : ¬ 0xF0 + c / 262144 < 0xC2),
          if_neg (by omega : ¬ 0xF0 + c / 262144 < 0xE0),
          if_neg (by omega : ¬ 0xF0 + c / 262144 < 0xF0),
          if_pos (by omega : 0xF0 + c / 262144 < 0xF5),
          if_pos (⟨⟨by omega, by omega⟩, ⟨by omega, by omega⟩, by omega, by omega⟩ :
            (0x80 ≤ 0x80 + c / 4096 % 64 ∧ 0x80 + c / 4096 % 64 < 0xC0) ∧
              (0x80 ≤ 0x80 + c / 64 % 64 ∧ 0x80 + c / 64 % 64 < 0xC0) ∧
                0x80 ≤ 0x80 + c % 64 ∧ 0x80 + c % 64 < 0xC0), hc,
          if_pos (by omega : 0x10000 ≤ c ∧ c < 0x110000)]

theorem utf8DecodeLoop_encode : ∀ (s : Str) (fuel : Nat), (∀ c ∈ s, ValidScalar c) →
    (utf8Encode s).length ≤ fuel → utf8DecodeLoop fuel (utf8Encode s) = some s := by
  intro s
  induction s with
  | nil => intro fuel _ _; cases fuel <;> rfl
  | cons c cs ih =>
    intro fuel h hlen
    have hv : ValidScalar c := h c (by simp)
    rcases he : utf8EncodeChar c with _ | ⟨b, ebs⟩
    · exact absurd he (utf8EncodeChar_ne_nil c)
    cases fuel with
    | zero =>
      exfalso
      have h1 : (utf8Encode (c :: cs)).length ≥ 1 := by
        simp [utf8Encode, he]
      omega
    | succ fuel' =>
      have hone : utf8DecodeOne (utf8Encode (c :: cs)) = some (c, utf8Encode cs) := by
        simp only [utf8Encode]; exact utf8DecodeOne_encodeChar c hv (utf8Encode cs)
      have hshape : utf8Encode (c :: cs) = b :: (ebs ++ utf8Encode cs) := by
        simp [utf8Encode, he]
      rw [hshape] at hone
      have hlen' : (utf8Encode cs).length ≤ fuel' := by
        rw [hshape] at hlen
        simp only [List.length_cons, List.length_append] at hlen
        omega
      rw [hshape]
      simp only [utf8DecodeLoop, hone,
        ih fuel' (fun x hx => h x (by simp [hx])) hlen']
      rfl

theorem utf8_roundtrip (s : Str) (h : ∀ c ∈ s, ValidScalar c) :
    utf8Decode (utf8Encode s) = some s :=
  utf8DecodeLoop_encode s (utf8Encode s).length h (Nat.le_refl _)

/-- Fuel does not matter for `natDecDigitsAux` once it is sufficient. -/
theorem natDecDigitsAux_congr : ∀ f1 : Nat, ∀ f2 n : Nat, n < f1 → n < f2 →
    natDecDigitsAux f1 n = natDecDigitsAux f2 n := by
  intro f1
  induction f1 with
  | zero => intro f2 n h1 _; omega
  | succ f1' ih =>
    intro f2 n h1 h2
    cases f2 with
    | zero => omega
    | succ f2' =>
      by_cases h10 : n < 10
      · simp [natDecDigitsAux, if_pos h10]
      · simp only [natDecDigitsAux, if_neg h10]
        rw [ih f2' (n / 10) (by omega) (by omega)]

theorem natDecDigits_eq (n : Nat) : natDecDigits n =
    if n < 10 then [48 + n] else natDecDigits (n / 10) ++ [48 + n % 10] := by
  by_cases h10 : n < 10
  · rw [if_pos h10]; simp [natDecDigits, natDecDigitsAux, if_pos h10]
  · rw [if_neg h10]
    show natDecDigitsAux (n + 1) n = natDecDigitsAux (n / 10 + 1) (n / 10) ++ [48 + n % 10]
    rw [show natDecDigitsAux (n + 1) n = natDecDigitsAux n (n / 10) ++ [48 + n % 10] from by
      simp [natDecDigitsAux, if_neg h10]]
    rw [natDecDigitsAux_congr n (n / 10 + 1) (n / 10) (by omega) (by omega)]

theorem natDecDigits_digits : ∀ n : Nat, ∀ c ∈ natDecDigits n, 48 ≤ c ∧ c ≤ 57 := by
  intro n
  induction n using Nat.strong_induction_on with
  | _ n ih =>
    intro c hc
    rw [natDecDigits_eq] at hc
    by_cases h10 : n < 10
    · rw [if_pos h10] at hc; simp at hc; omega
    · rw [if_neg h10] at hc
      simp only [List.mem_append, List.mem_singleton] at hc
      rcases hc with hc | hc
      · exact ih (n / 10) (by omega) c hc
      · omega

theorem natDecDigits_ne_nil (n : Nat) : natDecDigits n ≠ [] := by
  rw [natDecDigits_eq]
  split_ifs <;> simp

theorem natDec_foldl : ∀ n a : Nat,
    List.foldl (fun acc c => acc * 10 + (c - 48)) a (natDecDigits n) =
      a * 10 ^ (natDecDigits n).length + n := by
  intro n
  induction n using Nat.strong_induction_on with
  | _ n ih =>
    intro a
    by_cases h10 : n < 10
    · rw [natDecDigits_eq, if_pos h10]
      simp only [List.foldl_cons, List.foldl_nil, List.length_singleton]
      omega
    · rw [natDecDigits_eq, if_neg h10]
      rw [List.foldl_append, ih (n / 10) (by omega) a]
      simp only [List.foldl_cons, List.foldl_nil, List.length_append,
        List.length_singleton]
      have hmod : 48 + n % 10 - 48 = n % 10 := by omega
      rw [hmod, Nat.pow_succ]
      have : a * (10 ^ (natDecDigits (n / 10)).length * 10) =
          a * 10 ^ (natDecDigits (n / 10)).length * 10 := by ring
      rw [this]
      omega

theorem parseU64_natDecDigits (t : Nat) (h : t < 18446744073709551616) :
    parseU64 (natDecDigits t) = some t := by
  rcases hd : natDecDigits t with _ | ⟨d, ds⟩
  · exact absurd hd (natDecDigits_ne_nil t)
  have hdig : ∀ c ∈ natDecDigits t, 48 ≤ c ∧ c ≤ 57 := natDecDigits_digits t
  rw [hd] at hdig
  have hd48 : 48 ≤ d ∧ d ≤ 57 := hdig d (by simp)
  unfold parseU64
  rw [if_neg (by simp; omega : ¬ (d :: ds).headD 0 = 43)]
  rw [if_neg (by simp : ¬ (d :: ds) = [])]
  rw [if_pos (by
    simp only [List.all_eq_true, Bool.and_eq_true, decide_eq_true_eq]
    intro c hc
    exact ⟨by exact (hdig c hc).1, by exact (hdig c hc).2⟩)]
  have hf := natDec_foldl t 0
  rw [hd] at hf
  simp only [hf]
  rw [if_pos (by omega)]
  have : 0 * 10 ^ (d :: ds).length + t = t := by omega
  rw [this]

/-- The modelled constant-time comparison is reflexive. -/
theorem fixed_time_eq_refl (a : List Nat) : fixed_time_eq a a = true := by
  simp [fixed_time_eq]

theorem validate_run {α : Type} (tk : Tokenize) (hmac : Hmac) (token : Str)
    (f : Str → Option α) (lr : α → Nat) (sigStr lastSeg accSeg timeSeg : Str)
    (accBytes timeBytes : List Nat) (accountId timeStr : Str) (t : Nat) (acct : α)
    (hcount : ¬((splitDot token).length < 3 ∨ (splitDot token).length > maxLen tk))
    (hsig : sigStringOf tk (splitDot token) = .ok sigStr)
    (hlast : (splitDot token).get? (maxLen tk - 1) = some lastSeg)
    (heq : fixed_time_eq (utf8Encode (b64EncodeBytes (compute_hmac hmac sigStr tk.secret)))
      (utf8Encode lastSeg) = true)
    (hacc : (splitDot token).get? (maxLen tk - 3) = some accSeg)
    (htime : (splitDot token).get? (maxLen tk - 2) = some timeSeg)
    (hdec1 : b64DecodeChars accSeg = some accBytes)
    (hutf1 : utf8Decode accBytes = some accountId)
    (hdec2 : b64DecodeChars timeSeg = some timeBytes)
    (hutf2 : utf8Decode timeBytes = some timeStr)
    (hparse : parseU64 timeStr = some t)
    (hf : f accountId = some acct) :
    validate tk hmac token f lr =
      if u64AsI64 (lr acct) > freshnessBound t then .err .tokenInvalidated else .ok acct := by
  unfold validate
  simp only [if_neg hcount, hsig, hlast]
  rw [if_pos heq]
  unfold decodePhase
  simp only [hacc, htime, hdec1, hutf1, hdec2, hutf2, hparse, hf]

theorem sigStringOf_err {tk : Tokenize} {sp : List Str} {e : VError}
    (h : sigStringOf tk sp = .err e) : e = .prefixMismatch := by
  unfold sigStringOf at h
  rcases hp : tk.pfx with _ | p <;> rw [hp] at h
  · rcases h0 : sp.get? 0 with _ | s0 <;> rw [h0] at h <;>
      rcases h1 : sp.get? 1 with _ | s1 <;> rw [h1] at h <;> simp at h
  · rcases h0 : sp.get? 0 with _ | s0 <;> rw [h0] at h <;>
      rcases h1 : sp.get? 1 with _ | s1 <;> rw [h1] at h <;>
      rcases h2 : sp.get? 2 with _ | s2 <;> rw [h2] at h <;> try simp at h
    split at h
    · cases h
    · injection h with h2
      exact h2.symm

theorem decodePhase_ne_malformed {α : Type} (tk : Tokenize) (sp : List Str)
    (f : Str → Option α) (lr : α → Nat) :
    decodePhase tk sp f lr ≠ .err .malformedToken := by
  intro h
  unfold decodePhase at h
  rcases ha : sp.get? (maxLen tk - 3) with _ | accSeg <;>
    rcases ht : sp.get? (maxLen tk - 2) with _ | timeSeg <;>
      simp only [ha, ht] at h
  · cases h
  · cases h
  · cases h
  · rcases hb : b64DecodeChars accSeg with _ | accBytes <;> simp only [hb] at h
    · cases h
    · rcases hu : utf8Decode accBytes with _ | accountId <;> simp only [hu] at h
      · cases h
      · rcases hb2 : b64DecodeChars timeSeg with _ | timeBytes <;> simp only [hb2] at h
        · cases h
        · rcases hu2 : utf8Decode timeBytes with _ | timeStr <;> simp only [hu2] at h
          · cases h
          · rcases hps : parseU64 timeStr with _ | ts <;> simp only [hps] at h
            · cases h
            · rcases hf : f accountId with _ | acct <;> simp only [hf] at h
              · cases h
              · split at h <;> cases h

theorem validate_malformed_iff {α : Type} (tk : Tokenize) (hmac : Hmac) (token : Str)
    (f : Str → Option α) (lr : α → Nat) :
    validate tk hmac token f lr = .err .malformedToken ↔
      ((splitDot token).length < 3 ∨ (splitDot token).length > maxLen tk) := by
  constructor
  · intro h
    by_cases hcount : (splitDot token).length < 3 ∨ (splitDot token).length > maxLen tk
    · exact hcount
    exfalso
    unfold validate at h
    simp only [if_neg hcount] at h
    split at h
    · cases h
    · rename_i e heq
      injection h with h2
      have h3 := sigStringOf_err heq
      rw [h2] at h3
      cases h3
    · split at h
      · cases h
      · split at h
        · exact decodePhase_ne_malformed tk (splitDot token) f lr h
        · cases h
  · intro h
    unfold validate
    simp only [if_pos h]

/-- A successful `sigStringOf` returns exactly the first `expected_len - 1`
segments joined by dots. -/
theorem sigStringOf_ok_join {tk : Tokenize} {sp : List Str} {s : Str}
    (h : sigStringOf tk sp = .ok s) (hlen : 3 ≤ sp.length) :
    joinDot (sp.take (maxLen tk - 1)) = s := by
  rcases sp with _ | ⟨s0, sp1⟩
  · simp at hlen
  rcases sp1 with _ | ⟨s1, sp2⟩
  · simp at hlen
  rcases sp2 with _ | ⟨s2, sp3⟩
  · simp at hlen
  have g0 : (s0 :: s1 :: s2 :: sp3).get? 0 = some s0 := rfl
  have g1 : (s0 :: s1 :: s2 :: sp3).get? 1 = some s1 := rfl
  have g2 : (s0 :: s1 :: s2 :: sp3).get? 2 = some s2 := rfl
  unfold sigStringOf at h
  rcases hp : tk.pfx with _ | p <;> rw [hp] at h
  · simp only [g0, g1] at h
    injection h with h2
    have htake : (s0 :: s1 :: s2 :: sp3).take (maxLen tk - 1) = [s0, s1] := by
      simp [maxLen, hp]
    rw [htake, ← h2]
    rfl
  · simp only [g0, g1, g2] at h
    split at h
    · cases h
    · rename_i hpe
      have hps : p = s0 := by
        by_contra hne
        exact hpe hne
      injection h with h2
      have htake : (s0 :: s1 :: s2 :: sp3).take (maxLen tk - 1) = [s0, s1, s2] := by
        simp [maxLen, hp]
      rw [htake, ← h2, hps]
      simp [joinDot, List.append_assoc]

/-- Claim C5: in both `generate` and `validate`, the byte sequence fed to
the MAC is exactly the ASCII string `"TTF"` + `"."` + the decimal
representation of version 1 + `"."` + the token's pre-signature segments
joined by dots, the signature segment excluded: two MAC functions that
agree on that one message make `generate` and `validate` behave
identically. -/
theorem c5_mac_message {α : Type} (tk : Tokenize) (h1 h2 : Hmac) (timeSec : Int)
    (accountId token : Str) (f : Str → Option α) (lr : α → Nat) :
    (h1 (macMessage (joinDot (genPresigSegments tk timeSec accountId))) tk.secret =
        h2 (macMessage (joinDot (genPresigSegments tk timeSec accountId))) tk.secret →
      generate tk h1 timeSec accountId = generate tk h2 timeSec accountId) ∧
    (h1 (macMessage (joinDot (tokenPresigSegments tk token))) tk.secret =
        h2 (macMessage (joinDot (tokenPresigSegments tk token))) tk.secret →
      validate tk h1 token f lr = validate tk h2 token f lr) := by
  constructor
  · intro hagree
    have hcomp : compute_hmac h1 (joinDot (genPresigSegments tk timeSec accountId)) tk.secret =
        compute_hmac h2 (joinDot (genPresigSegments tk timeSec accountId)) tk.secret := hagree
    have hmsg : joinDot (genPresigSegments tk timeSec accountId) =
        (match tk.pfx with
          | some p => p ++ [46]
          | none => []) ++ b64EncodeBytes (utf8Encode accountId) ++
          46 :: b64EncodeBytes (utf8Encode (intDecStr timeSec)) := by
      rcases hp : tk.pfx with _ | p <;>
        simp [genPresigSegments, joinDot, hp, List.append_assoc]
    rw [hmsg] at hcomp
    simp only [generate, hcomp]
  · intro hagree
    unfold validate
    by_cases hcount : (splitDot token).length < 3 ∨ (splitDot token).length > maxLen tk
    · simp only [if_pos hcount]
    · simp only [if_neg hcount]
      rcases hs : sigStringOf tk (splitDot token) with s | e | _ <;> simp only [hs]
      have hseq : joinDot (tokenPresigSegments tk token) = s :=
        sigStringOf_ok_join hs (by omega)
      rw [hseq] at hagree
      rw [show compute_hmac h1 s tk.secret = compute_hmac h2 s tk.secret from hagree]

/-- Below the overflow threshold, the freshness bound computed in `i64`
arithmetic agrees with exact integer arithmetic. -/
theorem freshnessBound_exact (t : Nat) (h : t ≤ 9223370490553975) :
    freshnessBound t = (t : Int) * 1000 + 1546300800000 := by
  have h1 : wrapI64 ((t : Nat) : Int) = ((t : Nat) : Int) :=
    wrapI64_eq_self (by omega) (by omega)
  have h2 : wrapI64 (((t : Nat) : Int) * 1000) = ((t : Nat) : Int) * 1000 :=
    wrapI64_eq_self (by omega) (by omega)
  have h3 : wrapI64 (((t : Nat) : Int) * 1000 + 1546300800000) =
      ((t : Nat) : Int) * 1000 + 1546300800000 :=
    wrapI64_eq_self (by omega) (by omega)
  unfold freshnessBound i64Add i64Mul u64AsI64 TOKENIZE_EPOCH
  rw [h1, h2, h3]

theorem get_zero {x0 : Str} {rest : List Str} : (x0 :: rest).get? 0 = some x0 := rfl

theorem get_one {x0 x1 : Str} {rest : List Str} : (x0 :: x1 :: rest).get? 1 = some x1 := rfl

theorem get_two {x0 x1 x2 : Str} {rest : List Str} :
    (x0 :: x1 :: x2 :: rest).get? 2 = some x2 := rfl

theorem get_three {x0 x1 x2 x3 : Str} {rest : List Str} :
    (x0 :: x1 :: x2 :: x3 :: rest).get? 3 = some x3 := rfl

theorem sigStringOf_cons_none (secret : List Nat) (s0 s1 : Str) (rest : List Str) :
    sigStringOf ⟨secret, none⟩ (s0 :: s1 :: rest) = .ok (s0 ++ 46 :: s1) := rfl

theorem sigStringOf_cons_some (secret : List Nat) (p s0 s1 s2 : Str) (rest : List Str) :
    sigStringOf ⟨secret, some p⟩ (s0 :: s1 :: s2 :: rest) =
      if p ≠ s0 then .err .prefixMismatch else .ok (p ++ 46 :: s1 ++ 46 :: s2) := rfl

theorem generate_eq (tk : Tokenize) (hmac : Hmac) (timeSec : Int) (accountId : Str) :
    generate tk hmac timeSec accountId = .ok
      (((match tk.pfx with
          | some p => p ++ [46]
          | none => []) ++ b64EncodeBytes (utf8Encode accountId) ++
          46 :: b64EncodeBytes (utf8Encode (intDecStr timeSec))) ++
        46 :: b64EncodeBytes (compute_hmac hmac
          ((match tk.pfx with
            | some p => p ++ [46]
            | none => []) ++ b64EncodeBytes (utf8Encode accountId) ++
            46 :: b64EncodeBytes (utf8Encode (intDecStr timeSec))) tk.secret)) := rfl

set_option maxRecDepth 2048 in
/-- Claim C1 (amended): for every non-empty account id made of Unicode
scalar values, every secret, every optional prefix containing no dot
character, every issue time `t` with `0 ≤ t` and
`t * 1000 + TOKENIZE_EPOCH < 2^63`, and every lookup returning for that id
an account whose `last_token_reset` is at most `t * 1000 + TOKENIZE_EPOCH`,
`validate (generate a)` succeeds and returns the account the lookup
produced. -/
theorem c1_roundtrip {α : Type} (secret : List Nat) (pfxOpt : Option Str) (hmac : Hmac)
    (t : Int) (a : Str) (f : Str → Option α) (lr : α → Nat) (acct : α) (tok : Str)
    (hpfx : ∀ p, pfxOpt = some p → ∀ c ∈ p, c ≠ 46)
    (hvalid : ∀ c ∈ a, ValidScalar c)
    (hne : a ≠ [])
    (ht0 : 0 ≤ t)
    (ht1 : t * 1000 + TOKENIZE_EPOCH < 9223372036854775808)
    (hf : f a = some acct)
    (hlastr : (lr acct : Int) ≤ t * 1000 + TOKENIZE_EPOCH)
    (hgen : generate ⟨secret, pfxOpt⟩ hmac t a = .ok tok) :
    validate ⟨secret, pfxOpt⟩ hmac tok f lr = .ok acct := by
  simp only [TOKENIZE_EPOCH] at ht1 hlastr
  have hts : intDecStr t = natDecDigits t.toNat := by
    unfold intDecStr
    rw [if_neg (by omega : ¬ t < 0)]
  have htnat : (t.toNat : Int) = t := Int.toNat_of_nonneg ht0
  have htlt : t.toNat < 18446744073709551616 := by omega
  have hTdig : ∀ c ∈ intDecStr t, ValidScalar c := by
    rw [hts]
    intro c hc
    have hd := natDecDigits_digits t.toNat c hc
    unfold ValidScalar
    omega
  have hAno : ∀ c ∈ b64EncodeBytes (utf8Encode a), c ≠ 46 := b64EncodeBytes_no_dot _
  have hTno : ∀ c ∈ b64EncodeBytes (utf8Encode (intDecStr t)), c ≠ 46 :=
    b64EncodeBytes_no_dot _
  have hAdec : b64DecodeChars (b64EncodeBytes (utf8Encode a)) = some (utf8Encode a) :=
    b64_roundtrip _ (utf8Encode_lt256 a hvalid)
  have hAutf : utf8Decode (utf8Encode a) = some a := utf8_roundtrip a hvalid
  have hTdec : b64DecodeChars (b64EncodeBytes (utf8Encode (intDecStr t))) =
      some (utf8Encode (intDecStr t)) :=
    b64_roundtrip _ (utf8Encode_lt256 _ hTdig)
  have hTutf : utf8Decode (utf8Encode (intDecStr t)) = some (intDecStr t) :=
    utf8_roundtrip _ hTdig
  have hTparse : parseU64 (intDecStr t) = some t.toNat := by
    rw [hts]; exact parseU64_natDecDigits _ htlt
  have hfresh : freshnessBound t.toNat = (t.toNat : Int) * 1000 + 1546300800000 :=
    freshnessBound_exact _ (by omega)
  have hu64 : u64AsI64 (lr acct) = (lr acct : Int) := by
    unfold u64AsI64
    exact wrapI64_eq_self (by omega) (by omega)
  have hcond : ¬(u64AsI64 (lr acct) > freshnessBound t.toNat) := by
    rw [hu64, hfresh, htnat]; omega
  rcases pfxOpt with _ | p
  · have htok : tok = b64EncodeBytes (utf8Encode a) ++
        46 :: (b64EncodeBytes (utf8Encode (intDecStr t)) ++
          46 :: b64EncodeBytes (compute_hmac hmac
            (b64EncodeBytes (utf8Encode a) ++ 46 :: b64EncodeBytes (utf8Encode (intDecStr t)))
            secret)) := by
      rw [generate_eq] at hgen
      rw [← Except.ok.inj hgen]
      simp [List.append_assoc]
    have hsplit : splitDot tok = [b64EncodeBytes (utf8Encode a),
        b64EncodeBytes (utf8Encode (intDecStr t)),
        b64EncodeBytes (compute_hmac hmac
          (b64EncodeBytes (utf8Encode a) ++ 46 :: b64EncodeBytes (utf8Encode (intDecStr t)))
          secret)] := by
      rw [htok, splitDot_append _ _ hAno, splitDot_append _ _ hTno,
        splitDot_no_dot _ (b64EncodeBytes_no_dot _)]
    have hcount : ¬((splitDot tok).length < 3 ∨
        (splitDot tok).length > maxLen ⟨secret, none⟩) := by
      rw [hsplit]; simp [maxLen]
    have hsig : sigStringOf ⟨secret, none⟩ (splitDot tok) =
        .ok (b64EncodeBytes (utf8Encode a) ++
          46 :: b64EncodeBytes (utf8Encode (intDecStr t))) := by
      rw [hsplit]; exact sigStringOf_cons_none secret _ _ _
    have hlastseg : (splitDot tok).get? (maxLen ⟨secret, none⟩ - 1) =
        some (b64EncodeBytes (compute_hmac hmac
          (b64EncodeBytes (utf8Encode a) ++ 46 :: b64EncodeBytes (utf8Encode (intDecStr t)))
          secret)) := by
      rw [hsplit]; exact get_two
    have hacc : (splitDot tok).get? (maxLen ⟨secret, none⟩ - 3) =
        some (b64EncodeBytes (utf8Encode a)) := by
      rw [hsplit]; exact get_zero
    have htime : (splitDot tok).get? (maxLen ⟨secret, none⟩ - 2) =
        some (b64EncodeBytes (utf8Encode (intDecStr t))) := by
      rw [hsplit]; exact get_one
    rw [validate_run ⟨secret, none⟩ hmac tok f lr _ _ _ _ _ _ _ _ t.toNat acct
      hcount hsig hlastseg (fixed_time_eq_refl _) hacc htime hAdec hAutf hTdec hTutf
      hTparse hf]
    rw [if_neg hcond]
  · have hpno : ∀ c ∈ p, c ≠ 46 := hpfx p rfl
    have htok : tok = p ++ 46 :: (b64EncodeBytes (utf8Encode a) ++
        46 :: (b64EncodeBytes (utf8Encode (intDecStr t)) ++
          46 :: b64EncodeBytes (compute_hmac hmac
            ((p ++ [46]) ++ b64EncodeBytes (utf8Encode a) ++
              46 :: b64EncodeBytes (utf8Encode (intDecStr t)))
            secret))) := by
      rw [generate_eq] at hgen
      rw [← Except.ok.inj hgen]
      simp [List.append_assoc]
    have hsplit : splitDot tok = [p, b64EncodeBytes (utf8Encode a),
        b64EncodeBytes (utf8Encode (intDecStr t)),
        b64EncodeBytes (compute_hmac hmac
          ((p ++ [46]) ++ b64EncodeBytes (utf8Encode a) ++
            46 :: b64EncodeBytes (utf8Encode (intDecStr t)))
          secret)] := by
      rw [htok, splitDot_append _ _ hpno, splitDot_append _ _ hAno, splitDot_append _ _ hTno,
        splitDot_no_dot _ (b64EncodeBytes_no_dot _)]
    have hcount : ¬((splitDot tok).length < 3 ∨
        (splitDot tok).length > maxLen ⟨secret, some p⟩) := by
      rw [hsplit]; simp [maxLen]
    have hsig : sigStringOf ⟨secret, some p⟩ (splitDot tok) =
        .ok ((p ++ [46]) ++ b64EncodeBytes (utf8Encode a) ++
          46 :: b64EncodeBytes (utf8Encode (intDecStr t))) := by
      rw [hsplit, sigStringOf_cons_some]
      rw [if_neg (by simp : ¬ p ≠ p)]
      simp [List.append_assoc]
    have hlastseg : (splitDot tok).get? (maxLen ⟨secret, some p⟩ - 1) =
        some (b64EncodeBytes (compute_hmac hmac
          ((p ++ [46]) ++ b64EncodeBytes (utf8Encode a) ++
            46 :: b64EncodeBytes (utf8Encode (intDecStr t)))
          secret)) := by
      rw [hsplit]; exact get_three
    have hacc : (splitDot tok).get? (maxLen ⟨secret, some p⟩ - 3) =
        some (b64EncodeBytes (utf8Encode a)) := by
      rw [hsplit]; exact get_one
    have htime : (splitDot tok).get? (maxLen ⟨secret, some p⟩ - 2) =
        some (b64EncodeBytes (utf8Encode (intDecStr t))) := by
      rw [hsplit]; exact get_two
    rw [validate_run ⟨secret, some p⟩ hmac tok f lr _ _ _ _ _ _ _ _ t.toNat acct
      hcount hsig hlastseg (fixed_time_eq_refl _) hacc htime hAdec hAutf hTdec hTutf
      hTparse hf]
    rw [if_neg hcond]

/-- Claim C1 (counterexample): with the prefix configured as the literal
string `"."`, the claim's round trip fails: `generate` builds a token whose
split has five segments, and `validate` rejects it with `malformedToken`
even though the lookup satisfies the claim's freshness condition. -/
theorem c1_counterexample :
    generate ⟨[], some [46]⟩ (fun _ _ => []) 0 [120] = .ok [46, 46, 101, 65, 46, 77, 65, 46] ∧
      ((0 : Nat) : Int) ≤ 0 * 1000 + TOKENIZE_EPOCH ∧
      validate ⟨[], some [46]⟩ (fun _ _ => []) [46, 46, 101, 65, 46, 77, 65, 46]
        (fun _ => some (0 : Nat)) (fun n => n) = .err .malformedToken :=
  ⟨rfl, by decide, by decide⟩

/-- Witness for Claim C1 (amended): a concrete round trip with prefix
`"p"`, account id `"x"`, issue time `0`, and a lookup returning an account
with `last_token_reset = 5`. -/
theorem c1_roundtrip_witness :
    validate ⟨[], some [112]⟩ (fun _ _ => []) [112, 46, 101, 65, 46, 77, 65, 46]
      (fun _ => some (5 : Nat)) (fun n => n) = .ok 5 :=
  c1_roundtrip [] (some [112]) (fun _ _ => []) 0 [120] (fun _ => some 5) (fun n => n) 5
    [112, 46, 101, 65, 46, 77, 65, 46]
    (by intro p hp; cases hp; decide)
    (by decide) (by decide) (by decide) (by decide) (by decide) (by decide) rfl

/-- Claim C2 (code bug): with a prefix configured and a 3-segment token
whose first segment equals the prefix, the segment-count check passes and
the signature comparison indexes `splitted[3]`, which is out of bounds:
`validate` panics instead of returning a `Result`. -/
theorem c2_panics :
    validate ⟨[], some [112]⟩ (fun _ _ => []) [112, 46, 97, 46, 98]
      (fun _ => (none : Option Nat)) (fun n => n) = .panicked := by decide

/-- Claim C3 (counterexample): a prefixed Signer rejects the 3-segment
token `"q.a.b"` with `prefixMismatch`, not `malformedToken`, although its
segment count is not 4. -/
theorem c3_counterexample :
    (splitDot [113, 46, 97, 46, 98]).length ≠ 4 ∧
      validate ⟨[], some [112]⟩ (fun _ _ => []) [113, 46, 97, 46, 98]
        (fun _ => (none : Option Nat)) (fun n => n) ≠ .err .malformedToken ∧
      validate ⟨[], some [112]⟩ (fun _ _ => []) [113, 46, 97, 46, 98]
        (fun _ => (none : Option Nat)) (fun n => n) = .err .prefixMismatch := by decide

/-- Claim C3 (amended): `validate` fails with `malformedToken` — and with
no other error kind — on every token whose segment count is below 3 or
above 4 when a prefix is configured, respectively different from 3 when
none is. -/
theorem c3_count_malformed {α : Type} (tk : Tokenize) (hmac : Hmac) (token : Str)
    (f : Str → Option α) (lr : α → Nat)
    (h : (splitDot token).length < 3 ∨
      (splitDot token).length > (if tk.pfx.isSome then 4 else 3)) :
    validate tk hmac token f lr = .err .malformedToken :=
  (validate_malformed_iff tk hmac token f lr).mpr (by simpa only [maxLen] using h)

/-- Witness for Claim C3 (amended): a 4-segment token against an
unprefixed Signer. -/
theorem c3_count_malformed_witness :
    validate ⟨[], none⟩ (fun _ _ => []) [97, 46, 98, 46, 99, 46, 100]
      (fun _ => some (0 : Nat)) (fun n => n) = .err .malformedToken :=
  c3_count_malformed ⟨[], none⟩ (fun _ _ => []) [97, 46, 98, 46, 99, 46, 100]
    (fun _ => some (0 : Nat)) (fun n => n) (by decide)

/-- Claim C4 (counterexample): for the decoded issue time `2^64 - 1` the
`u64`-to-`i64` cast wraps to `-1`, so the code compares against
`1546300799000` and fails with `tokenInvalidated`, although the account's
`last_token_reset` does not exceed the mathematical issue time in
milliseconds required by the claim. -/
theorem c4_counterexample :
    (1546300800000 : Int) ≤ ((18446744073709551615 : Nat) : Int) * 1000 + TOKENIZE_EPOCH ∧
      validate ⟨[], none⟩ (fun _ _ => [])
        (joinDot [b64EncodeBytes (utf8Encode [120]),
          b64EncodeBytes (utf8Encode (natDecDigits 18446744073709551615)), []])
        (fun _ => some (1546300800000 : Nat)) (fun n => n) = .err .tokenInvalidated := by
  constructor
  · decide
  · decide

/-- Claim C4 (amended): for every token that passes the split, prefix,
signature, decode and account-lookup steps of `validate`, whose decoded
issue time is at most 9223370490553975 and whose account's
`last_token_reset` is below `2^63`, the call fails with `tokenInvalidated`
iff `last_token_reset` is strictly greater than
`t * 1000 + 1546300800000`, and otherwise succeeds and returns the
account. -/
theorem c4_freshness {α : Type} (tk : Tokenize) (hmac : Hmac) (token : Str)
    (f : Str → Option α) (lr : α → Nat) (sigStr lastSeg accSeg timeSeg : Str)
    (accBytes timeBytes : List Nat) (accountId timeStr : Str) (t : Nat) (acct : α)
    (hcount : ¬((splitDot token).length < 3 ∨ (splitDot token).length > maxLen tk))
    (hsig : sigStringOf tk (splitDot token) = .ok sigStr)
    (hlast : (splitDot token).get? (maxLen tk - 1) = some lastSeg)
    (heq : fixed_time_eq (utf8Encode (b64EncodeBytes (compute_hmac hmac sigStr tk.secret)))
      (utf8Encode lastSeg) = true)
    (hacc : (splitDot token).get? (maxLen tk - 3) = some accSeg)
    (htime : (splitDot token).get? (maxLen tk - 2) = some timeSeg)
    (hdec1 : b64DecodeChars accSeg = some accBytes)
    (hutf1 : utf8Decode accBytes = some accountId)
    (hdec2 : b64DecodeChars timeSeg = some timeBytes)
    (hutf2 : utf8Decode timeBytes = some timeStr)
    (hparse : parseU64 timeStr = some t)
    (hf : f accountId = some acct)
    (htb : t ≤ 9223370490553975)
    (hlb : lr acct < 9223372036854775808) :
    validate tk hmac token f lr =
      if (lr acct : Int) > (t : Int) * 1000 + 1546300800000
      then .err .tokenInvalidated else .ok acct := by
  rw [validate_run tk hmac token f lr sigStr lastSeg accSeg timeSeg accBytes timeBytes
    accountId timeStr t acct hcount hsig hlast heq hacc htime hdec1 hutf1 hdec2 hutf2
    hparse hf]
  rw [freshnessBound_exact t htb]
  have hu : u64AsI64 (lr acct) = (lr acct : Int) := by
    unfold u64AsI64
    exact wrapI64_eq_self (by omega) (by omega)
  rw [hu]

/-- Witness for Claim C4 (amended): the token `"eA.MA."` under the empty
secret and a constant-empty MAC, with `last_token_reset = 0`. -/
theorem c4_freshness_witness :
    validate ⟨[], none⟩ (fun _ _ => []) [101, 65, 46, 77, 65, 46]
      (fun _ => some (0 : Nat)) (fun n => n) = .ok 0 :=
  (c4_freshness ⟨[], none⟩ (fun _ _ => []) [101, 65, 46, 77, 65, 46]
      (fun _ => some (0 : Nat)) (fun n => n)
      [101, 65, 46, 77, 65] [] [101, 65] [77, 65] [120] [48] [120] [48] 0 0
      (by decide) (by decide) (by decide) (by decide) (by decide) (by decide)
      (by decide) (by decide) (by decide) (by decide) (by decide) (by decide)
      (by decide) (by decide)).trans (by decide)

/-- Claim C7: after the split and prefix checks, a mismatch between the
recomputed MAC and the token's signature segment makes `validate` fail
with `signatureMismatch` under every account-lookup function: the result
is identical for any two lookups, which are never consulted, and no
base64-decoded field influences the outcome. -/
theorem c7_signature_gate {α β : Type} (tk : Tokenize) (hmac : Hmac) (token : Str)
    (f : Str → Option α) (lr : α → Nat) (g : Str → Option β) (lr2 : β → Nat)
    (sigStr lastSeg : Str)
    (hcount : ¬((splitDot token).length < 3 ∨ (splitDot token).length > maxLen tk))
    (hsig : sigStringOf tk (splitDot token) = .ok sigStr)
    (hlast : (splitDot token).get? (maxLen tk - 1) = some lastSeg)
    (hne : fixed_time_eq (utf8Encode (b64EncodeBytes (compute_hmac hmac sigStr tk.secret)))
      (utf8Encode lastSeg) = false) :
    validate tk hmac token f lr = .err .signatureMismatch ∧
      validate tk hmac token g lr2 = .err .signatureMismatch := by
  refine ⟨?_, ?_⟩ <;>
    (unfold validate
     simp only [if_neg hcount, hsig, hlast]
     rw [if_neg (by simp [hne])])

/-- Witness for Claim C7: the token `"a.b.c"` whose signature segment does
not match the recomputed MAC, under two different lookups. -/
theorem c7_signature_gate_witness :
    validate ⟨[], none⟩ (fun _ _ => [0]) [97, 46, 98, 46, 99]
        (fun _ => some (3 : Nat)) (fun n => n) = .err .signatureMismatch ∧
      validate ⟨[], none⟩ (fun _ _ => [0]) [97, 46, 98, 46, 99]
        (fun _ => (none : Option Nat)) (fun n => n) = .err .signatureMismatch :=
  c7_signature_gate ⟨[], none⟩ (fun _ _ => [0]) [97, 46, 98, 46, 99]
    (fun _ => some (3 : Nat)) (fun n => n) (fun _ => (none : Option Nat)) (fun n => n)
    [97, 46, 98] [99] (by decide) (by decide) (by decide) (by decide)

/-- Claim C8: `validate`'s split step computes `expected_len = 4` when a
prefix is configured and `3` otherwise, and fails with `malformedToken`
exactly when the number of dot-separated segments is less than 3 or
greater than `expected_len`, for every input token string. -/
theorem c8_split_bounds {α : Type} (tk : Tokenize) (hmac : Hmac) (token : Str)
    (f : Str → Option α) (lr : α → Nat) :
    validate tk hmac token f lr = .err .malformedToken ↔
      ((splitDot token).length < 3 ∨
        (splitDot token).length > (if tk.pfx.isSome then 4 else 3)) := by
  have h := validate_malformed_iff tk hmac token f lr
  simpa only [maxLen] using h

/-- Claim C9: `generate` never fails: for every configuration, MAC
function, issue time and account id it returns `Ok` with the complete
token string — the `EncodingError` branch is unreachable. -/
theorem c9_generate_total (tk : Tokenize) (hmac : Hmac) (timeSec : Int) (accountId : Str) :
    ∃ tok : Str, generate tk hmac timeSec accountId = .ok tok := ⟨_, rfl⟩

/-- Claim C10 (counterexample): for the parsed `u64` issue time
`2^64 - 1`, the value compared against `last_token_reset` is
`1546300799000`, not the mathematical `t * 1000 + 1546300800000`: the
`u64`-to-`i64` cast wraps. -/
theorem c10_counterexample :
    (18446744073709551615 : Nat) < 18446744073709551616 ∧
      freshnessBound 18446744073709551615 = 1546300799000 ∧
      freshnessBound 18446744073709551615 ≠
        ((18446744073709551615 : Nat) : Int) * 1000 + 1546300800000 := by decide

/-- Claim C10 (amended): for every parsed `u64` issue time `t` up to
9223370490553975, the value compared against `last_token_reset` equals the
mathematical integer `t * 1000 + 1546300800000`; beyond that threshold the
`i64` cast and arithmetic wrap. -/
theorem c10_exact_below_threshold (t : Nat) (h : t ≤ 9223370490553975) :
    freshnessBound t = (t : Int) * 1000 + 1546300800000 :=
  freshnessBound_exact t h

/-- Witness for Claim C10 (amended): the issue time of the repository's
own test vector. -/
theorem c10_exact_witness :
    freshnessBound 95334807 = ((95334807 : Nat) : Int) * 1000 + 1546300800000 :=
  c10_exact_below_threshold 95334807 (by decide)

/-- Witness for Claim C5: two concrete MAC functions that agree on the
specified message make `generate` and `validate` coincide. -/
theorem c5_witness :
    (generate ⟨[117, 119, 117], some [112]⟩ (fun _ _ => [0]) 7 [120] =
      generate ⟨[117, 119, 117], some [112]⟩
        (fun m _ => if m = macMessage
            (joinDot (genPresigSegments ⟨[117, 119, 117], some [112]⟩ 7 [120]))
          then [0] else [1]) 7 [120]) ∧
    (validate ⟨[117, 119, 117], some [112]⟩ (fun _ _ => [0]) [112, 46, 97, 46, 98, 46, 99]
        (fun _ => some (0 : Nat)) (fun n => n) =
      validate ⟨[117, 119, 117], some [112]⟩
        (fun m _ => if m = macMessage
            (joinDot (tokenPresigSegments ⟨[117, 119, 117], some [112]⟩
              [112, 46, 97, 46, 98, 46, 99]))
          then [0] else [1]) [112, 46, 97, 46, 98, 46, 99]
        (fun _ => some (0 : Nat)) (fun n => n)) :=
  ⟨(c5_mac_message ⟨[117, 119, 117], some [112]⟩ (fun _ _ => [0])
      (fun m _ => if m = macMessage
          (joinDot (genPresigSegments ⟨[117, 119, 117], some [112]⟩ 7 [120]))
        then [0] else [1]) 7 [120] [112, 46, 97, 46, 98, 46, 99]
      (fun _ => some (0 : Nat)) (fun n => n)).1 (by decide),
    (c5_mac_message ⟨[117, 119, 117], some [112]⟩ (fun _ _ => [0])
      (fun m _ => if m = macMessage
          (joinDot (tokenPresigSegments ⟨[117, 119, 117], some [112]⟩
            [112, 46, 97, 46, 98, 46, 99]))
        then [0] else [1]) 7 [120] [112, 46, 97, 46, 98, 46, 99]
      (fun _ => some (0 : Nat)) (fun n => n)).2 (by decide)⟩
